import Mathlib

/-!
# SatoshiSend — verification of the server-side lifecycle engine

Shallow embedding of the Go sources of the `satoshisend` repository and
proofs about them.  Conventions used throughout:

* Go `string` values are modelled as `String` when they are used only as
  opaque keys (file ids, payment hashes, IPs), and as `List Char` where the
  code inspects them byte-by-byte (webhook headers, memo slicing).  The ids
  handled by the system are alphanumeric ASCII, where Go's byte length and
  the character count coincide.
* Wall-clock instants and durations are modelled as `Nat` nanoseconds since
  the epoch (Go `time.Time` / `time.Duration`; all instants handled by the
  program are non-negative).
* Go maps are modelled as association lists; `map` lookup is the first
  matching entry, `delete` removes every entry with the key.
* Fallible Go functions returning `error` are modelled with `Except`;
  a Go panic is modelled with `Option` (`none` = panic).
* External I/O (SQLite, the filesystem, the Alby HTTP API, HMAC-SHA256 from
  Go's standard library) is modelled by explicit parameters carrying the
  result of the external call.
-/

/- ═══════════════════════ internal/store (sqlite.go) ═══════════════════════ -/

/-- One row of the `files` table (`store.FileMeta` in
`src/unnamed/part_003`, persisted by `src/internal/store/sqlite.go`). -/
structure FileRow where
  id : String
  size : Int
  expiresAt : Nat        -- ns since epoch (DATETIME column, second granularity writes)
  hostDurationNs : Nat   -- host_duration_ns column
  paid : Bool
  createdAt : Nat
  deriving Repr, DecidableEq

/-- The `files` table: a list of rows (`id` is the PRIMARY KEY, so reachable
states have at most one row per id; the embedding keeps SQL semantics on
arbitrary lists: statements act on every matching row). -/
abbrev FileDB := List FileRow

inductive StoreErr
  | notFound        -- store.ErrNotFound
  | alreadyExists   -- PRIMARY KEY violation on INSERT
  deriving Repr, DecidableEq

def nsPerSec : Nat := 1000000000

/-- SQLite `datetime` values have one-second resolution: an instant written
through `datetime(…)` is truncated to whole seconds. -/
def truncSec (t : Nat) : Nat := t / nsPerSec * nsPerSec

/-- `SQLiteStore.SaveFileMetadata` (sqlite.go:58-64): a plain INSERT; the
PRIMARY KEY on `id` makes it fail when a row with the same id exists. -/
def saveFileMetadata (db : FileDB) (meta : FileRow) : Except StoreErr FileDB :=
  if db.any (fun r => r.id = meta.id) then .error .alreadyExists
  else .ok (db ++ [meta])

/-- `SQLiteStore.GetFileMetadata` (sqlite.go:66-85). -/
def getFileMetadata (db : FileDB) (id : String) : Except StoreErr FileRow :=
  match db.find? (fun r => r.id = id) with
  | some r => .ok r
  | none => .error .notFound

/-- `SQLiteStore.UpdatePaymentStatus` (sqlite.go:87-120).  A single UPDATE
statement; when `paid = true` it also sets
`expires_at = datetime('now', '+' || (host_duration_ns / 1000000000) || ' seconds')`,
i.e. the current time plus the whole-seconds truncation of the stored
host duration, at one-second granularity.  `RowsAffected = 0` yields
`ErrNotFound`. -/
def updatePaymentStatus (db : FileDB) (fileID : String) (paid : Bool) (now : Nat) :
    Except StoreErr FileDB :=
  let db' := db.map (fun r =>
    if r.id = fileID then
      if paid then
        { r with
            paid := true
            expiresAt := truncSec now + r.hostDurationNs / nsPerSec * nsPerSec }
      else { r with paid := false }
    else r)
  if db.any (fun r => r.id = fileID) then .ok db' else .error .notFound

/-- `SQLiteStore.DeleteFileMetadata` (sqlite.go:122-135): DELETE by id;
`RowsAffected = 0` yields `ErrNotFound`. -/
def deleteFileMetadata (db : FileDB) (id : String) : Except StoreErr FileDB :=
  if db.any (fun r => r.id = id) then .ok (db.filter (fun r => ¬ r.id = id))
  else .error .notFound

/-- `SQLiteStore.ListExpiredFiles` (sqlite.go:137-160): rows with
`expires_at < now`. -/
def listExpiredFiles (db : FileDB) (now : Nat) : List FileRow :=
  db.filter (fun r => r.expiresAt < now)

/- ════════════ claim C3: MarkPaid semantics (UpdatePaymentStatus true) ════════════ -/

/-- Find the row with a given id, as the SQL WHERE clause does. -/
def findRow (db : FileDB) (id : String) : Option FileRow :=
  db.find? (fun r => r.id = id)

/-- epsilon from the spec's expiry-extension law: 1 minute, in ns. -/
def epsNs : Nat := 60 * nsPerSec

/- ═══════════════ internal/files (service + storage_fs.go) ═══════════════ -/

/-- Error values of the files service and its storage backends
(`files.ErrNotFound`, `files.ErrNotPaid`, `files.ErrExpired`, the two
`errors.New` messages in `Service.CompleteUpload`, and store errors passed
through). -/
inductive FileErr
  | storeNotFound       -- store.ErrNotFound surfacing from GetFileMetadata
  | fsNotFound          -- files.ErrNotFound (storage object absent)
  | notPaid             -- files.ErrNotPaid
  | expired             -- files.ErrExpired
  | noStatSupport       -- "storage backend does not support stat"
  | uploadMayHaveFailed -- "file not found in storage - upload may have failed"
  | saveFailed (e : StoreErr) -- SaveFileMetadata error passed through
  deriving Repr, DecidableEq

/-- `files.PendingTimeout` (src/unnamed/part_000:206): `15 * time.Minute`
in ns. -/
def pendingTimeoutNs : Nat := 15 * 60 * nsPerSec

/-- `files.UploadResult`. -/
structure UploadResult where
  id : String
  size : Int
  deriving Repr, DecidableEq

/-- `Service.CompleteUpload` (src/unnamed/part_000:297-332).  `hasStat`
models the `s.storage.(StatProvider)` type assertion; `statResult` carries
the outcome of the external `statProvider.Stat(ctx, id)` call.  The `Bool`
in the ok result records whether the size-mismatch log line was emitted
(the mismatch is logged, never fatal). -/
def completeUpload (hasStat : Bool) (statResult : Except FileErr Int) (db : FileDB)
    (id : String) (expectedSize : Int) (hostDurationNs now : Nat) :
    Except FileErr (FileDB × UploadResult × Bool) :=
  if hasStat = false then .error .noStatSupport
  else
    match statResult with
    | .error e => if e = .fsNotFound then .error .uploadMayHaveFailed else .error e
    | .ok actualSize =>
      let mismatchLogged : Bool := decide (0 < expectedSize ∧ actualSize ≠ expectedSize)
      let meta : FileRow :=
        { id := id, size := actualSize, expiresAt := now + pendingTimeoutNs,
          hostDurationNs := hostDurationNs, paid := false, createdAt := now }
      match saveFileMetadata db meta with
      | .error e => .error (.saveFailed e)
      | .ok db' => .ok (db', { id := id, size := actualSize }, mismatchLogged)

/-- `Service.Download` (src/unnamed/part_000:335-350); the gating of
`Service.DownloadSeekable` (lines 360-386, the entry point used by
`Handler.handleDownload`) is byte-for-byte identical.  The ok value is the
id handed to `storage.Load`; `time.Now().After(expiresAt)` is `expiresAt <
now`. -/
def download (db : FileDB) (id : String) (now : Nat) : Except FileErr String :=
  match getFileMetadata db id with
  | .error _ => .error .storeNotFound
  | .ok meta =>
    if meta.paid = false then .error .notPaid
    else if meta.expiresAt < now then .error .expired
    else .ok id

/-- `Service.CleanupExpired` (src/unnamed/part_000:420-449).  `sdel id`
models `storage.Delete(ctx, id)` returning nil or `ErrNotFound` (`true`) vs
any other error (`false`, item skipped). -/
def cleanupExpired (sdel : String → Bool) (db : FileDB) (now : Nat) : FileDB × Nat :=
  (listExpiredFiles db now).foldl
    (fun acc meta =>
      if sdel meta.id then
        match deleteFileMetadata acc.1 meta.id with
        | .ok db' => (db', acc.2 + 1)
        | .error _ => acc
      else acc)
    (db, 0)

/-- The byte class of the Go regexp `[a-zA-Z0-9]`. -/
def isAlnumGoByte (c : Char) : Bool :=
  ('a' ≤ c && c ≤ 'z') || ('A' ≤ c && c ≤ 'Z') || ('0' ≤ c && c ≤ '9')

/-- `validIDPattern.MatchString` / `validFileIDPattern.MatchString` for the
regexp `^[a-zA-Z0-9]+$` (storage_fs.go:16, handler.go:467).  Go regexps run
over bytes; ids are modelled as char lists, which agrees on every input
because any non-ASCII character already fails the class. -/
def matchesIDPattern (s : List Char) : Bool :=
  decide (s ≠ []) && s.all isAlnumGoByte

inductive StorageErr
  | notFound   -- files.ErrNotFound
  | invalidID  -- files.ErrInvalidID
  | ioErr      -- any other OS error
  deriving Repr, DecidableEq

/-- `FSStorage.validateID` (storage_fs.go:31-36):
`id == "" || len(id) > 64 || !validIDPattern.MatchString(id)` rejects with
`ErrInvalidID`.  (Go's `len` is the byte length; on the rejected/accepted
split this coincides with the char-list length, since every accepted id is
ASCII.) -/
def validateID (id : List Char) : Except StorageErr Unit :=
  if id = [] ∨ 64 < id.length ∨ matchesIDPattern id = false then .error .invalidID
  else .ok ()

/-- Filesystem side effects of the FS storage backend; `pathJoined` marks
`s.path(id)` (`filepath.Join`) being evaluated. -/
inductive FSEffect
  | pathJoined (id : List Char)
  | osCreate (id : List Char)
  | osOpen (id : List Char)
  | osRemove (id : List Char)
  deriving Repr, DecidableEq

/-- `FSStorage.SaveWithProgress` (storage_fs.go:46-67): validate first, only
then construct the path and touch the filesystem.  `osWrite` carries the
result of `os.Create` + `io.Copy`. -/
def fsSaveWithProgress (osWrite : List Char → Except StorageErr Int) (id : List Char) :
    Except StorageErr Int × List FSEffect :=
  match validateID id with
  | .error e => (.error e, [])
  | .ok _ => (osWrite id, [.pathJoined id, .osCreate id])

/-- `FSStorage.Load` (storage_fs.go:69-78): validate, then open;
`os.ErrNotExist` is mapped to `ErrNotFound` inside `osOpen`. -/
def fsLoad (osOpen : List Char → Except StorageErr Unit) (id : List Char) :
    Except StorageErr Unit × List FSEffect :=
  match validateID id with
  | .error e => (.error e, [])
  | .ok _ => (osOpen id, [.pathJoined id, .osOpen id])

/-- `FSStorage.Delete` (storage_fs.go:80-89). -/
def fsDelete (osRemove : List Char → Except StorageErr Unit) (id : List Char) :
    Except StorageErr Unit × List FSEffect :=
  match validateID id with
  | .error e => (.error e, [])
  | .ok _ => (osRemove id, [.pathJoined id, .osRemove id])

/- ═══════════════ internal/api handler (download path, id gate) ═══════════════ -/

/-- `isValidFileID` (handler.go:531-533 and src/unnamed/part_008:66-68):
`id != "" && len(id) <= 64 && validFileIDPattern.MatchString(id)`. -/
def isValidFileID (id : List Char) : Bool :=
  decide (id ≠ []) && decide (id.length ≤ 64) && matchesIDPattern id

/-- Calls the HTTP handlers issue against the files/payments services (and
through them against BlobStore/MetaStore). -/
inductive ApiEffect
  | serviceDownload (id : String)
  | serviceGetMetadata (id : String)
  | serviceGetInvoice (id : String)
  deriving Repr, DecidableEq

/-- `Handler.handleDownload` (handler.go:794-831): id gate, then
`DownloadSeekable`, mapping `ErrNotPaid` to 402, `ErrExpired` to 410,
`store.ErrNotFound` to 404, other errors to 500, success to 200 (the
follow-up `GetMetadata` for the mod-time happens only on success). -/
def handleDownload (db : FileDB) (idRaw : List Char) (now : Nat) : Nat × List ApiEffect :=
  if isValidFileID idRaw = false then (400, [])
  else
    let id : String := ⟨idRaw⟩
    match download db id now with
    | .error .notPaid => (402, [.serviceDownload id])
    | .error .expired => (410, [.serviceDownload id])
    | .error .storeNotFound => (404, [.serviceDownload id])
    | .error _ => (500, [.serviceDownload id])
    | .ok _ => (200, [.serviceDownload id, .serviceGetMetadata id])

/-- `Handler.handleStatus` (handler.go:841-856, id gate part): invalid ids
are rejected with 400 before `GetMetadata` is called. -/
def handleStatusGate (db : FileDB) (idRaw : List Char) : Nat × List ApiEffect :=
  if isValidFileID idRaw = false then (400, [])
  else
    let id : String := ⟨idRaw⟩
    match getFileMetadata db id with
    | .error _ => (404, [.serviceGetMetadata id])
    | .ok _ => (200, [.serviceGetMetadata id])

/- ═══════════════ claim C9: id validation closure ═══════════════ -/

/-- The id grammar of the spec: `[A-Za-z0-9]` repeated 1 to 64 times. -/
def idGrammar (id : List Char) : Prop :=
  id ≠ [] ∧ id.length ≤ 64 ∧ ∀ c ∈ id, isAlnumGoByte c = true

/- ═══════════════ claim C6: paid-once (no operation reverts `paid`) ═══════════════ -/

/-- The store-mutating operations reachable in the program: metadata
creation by the upload paths (`Service.UploadWithProgress` /
`Service.CompleteUpload`, always `Paid: false`), settlement handling
(`Service.handlePayment` / `Service.MarkPaid`, which are the only callers of
`UpdatePaymentStatus` and always pass `paid = true`), and the cleanup sweep
(`Service.CleanupExpired`). -/
inductive SysOp
  | upload (id : String) (size : Int) (hostDurationNs : Nat) (now : Nat)
  | settle (fileID : String) (now : Nat)
  | sweep (sdel : String → Bool) (now : Nat)

/-- One step of `cleanupExpired`'s loop body. -/
def cleanupStep (sdel : String → Bool) (acc : FileDB × Nat) (meta : FileRow) : FileDB × Nat :=
  if sdel meta.id then
    match deleteFileMetadata acc.1 meta.id with
    | .ok db' => (db', acc.2 + 1)
    | .error _ => acc
  else acc

/-- Effect of a failed/successful sub-operation on the metadata store. -/
def sysStep (db : FileDB) : SysOp → FileDB
  | .upload id size hd now =>
    match saveFileMetadata db
        { id := id, size := size, expiresAt := now + pendingTimeoutNs,
          hostDurationNs := hd, paid := false, createdAt := now } with
    | .ok db' => db'
    | .error _ => db
  | .settle fid now =>
    match updatePaymentStatus db fid true now with
    | .ok db' => db'
    | .error _ => db
  | .sweep sdel now => (cleanupExpired sdel db now).1

/- ═══════════════ internal/payments (service.go, src/unnamed/part_005) ═══════════════ -/

/-- `payments.Invoice` (lnd.go). -/
structure Invoice where
  paymentHash : String
  paymentRequest : String
  amountSats : Int
  deriving Repr, DecidableEq

/-- `payments.PendingInvoice` (part_005:20-24). -/
structure PendingInvoice where
  fileID : String
  paymentHash : String
  invoice : Invoice
  deriving Repr, DecidableEq

/-- The mutable state of `payments.Service` (part_005:27-35): the two maps
guarded by `mu` and whether `onPayment` is set. -/
structure PayService where
  pending : List (String × PendingInvoice)
  byFileID : List (String × PendingInvoice)
  hasCallback : Bool
  deriving Repr, DecidableEq

/-- Go map read: first (only) entry with the key. -/
def mapLookup {α : Type} (l : List (String × α)) (k : String) : Option α :=
  (l.find? (fun e => e.1 = k)).map (fun e => e.2)

/-- Go `delete`: drop every entry with the key. -/
def mapErase {α : Type} (l : List (String × α)) (k : String) : List (String × α) :=
  l.filter (fun e => ¬ e.1 = k)

/-- Go map assignment: replace any entry with the key. -/
def mapInsert {α : Type} (l : List (String × α)) (k : String) (v : α) :
    List (String × α) :=
  mapErase l k ++ [(k, v)]

/-- The observable outside work of `Service.handlePayment`: the
`store.UpdatePaymentStatus` call and the `onPayment` callback invocation. -/
inductive PayEffect
  | updateStatus (fileID : String) (paid : Bool)
  | callbackCall (fileID : String)
  deriving Repr, DecidableEq

/-- `Service.handlePayment` (part_005:118-145).  Under the lock: look up the
hash; when present, delete it from both maps and capture the callback.
Outside the lock: call `UpdatePaymentStatus(fileID, true)` (its failure is
only logged) and invoke the callback when set.  An absent hash means an
unknown/late/duplicate event and produces no effect. -/
def handlePayment (s : PayService) (paymentHash : String) : PayService × List PayEffect :=
  match mapLookup s.pending paymentHash with
  | some pending =>
    ({ s with
        pending := mapErase s.pending paymentHash
        byFileID := mapErase s.byFileID pending.fileID },
     [PayEffect.updateStatus pending.fileID true] ++
       (if s.hasCallback then [PayEffect.callbackCall pending.fileID] else []))
  | none => (s, [])

/-- The settlement consumer loop (part_005:99-113) applied to a finite
sequence of settled deliveries, accumulating the observable effects. -/
def processDeliveries (s : PayService) : List String → PayService × List PayEffect
  | [] => (s, [])
  | h :: rest =>
    let step := handlePayment s h
    let restRun := processDeliveries step.1 rest
    (restRun.1, step.2 ++ restRun.2)

/-- A concrete one-invoice coordinator state used by the C1 witness. -/
def samplePendingInvoice : PendingInvoice where
  fileID := "f1"
  paymentHash := "h1"
  invoice := { paymentHash := "h1", paymentRequest := "lnbc", amountSats := 100 }

/-- A concrete coordinator state with one pending invoice and a callback. -/
def samplePayService : PayService where
  pending := [("h1", samplePendingInvoice)]
  byFileID := [("f1", samplePendingInvoice)]
  hasCallback := true

/- ═══════════════ claim C10: the `fileID[:8]` slice in CreateInvoiceForFile ═══════════════ -/

/-- Go string slicing `s[:n]`: defined when `n ≤ len(s)`, a runtime panic
otherwise (`none`). -/
def goStringTake (s : List Char) (n : Nat) : Option (List Char) :=
  if n ≤ s.length then some (s.take n) else none

/-- `Service.CreateInvoiceForFile` (part_005:48-68).  The memo
`"SatoshiSend file hosting: " + fileID[:8]` is computed before the
`s.lnd.CreateInvoice` call, so `none` (the Go panic) means no wallet call
was made; on the non-panicking path the wallet result `inv` is stored in
both maps under the lock.  (This in-src version performs no MetaStore
write.) -/
def createInvoiceForFile (s : PayService) (fileID : List Char) (inv : Invoice) :
    Option (List Char × PayService) :=
  match goStringTake fileID 8 with
  | none => none
  | some pre =>
    let memo := "SatoshiSend file hosting: ".data ++ pre
    let pending : PendingInvoice :=
      { fileID := String.mk fileID, paymentHash := inv.paymentHash, invoice := inv }
    some (memo,
      { s with
          pending := mapInsert s.pending inv.paymentHash pending
          byFileID := mapInsert s.byFileID (String.mk fileID) pending })

/- ═══════════════ internal/api PendingFileLimiter (part_008:396-493) ═══════════════ -/

/-- `api.PendingFileLimiter`.  The two Go maps are modelled as total
functions returning the zero value for missing keys: an absent IP bucket is
the empty list (Go's nil map read), and pruning an empty bucket sets it
to `[]`, which is observationally identical.  `trackedAt` instants are `Int`
ns so that the sweep cutoff `now − maxAge` keeps Go's arithmetic. -/
structure PendingFileLimiter where
  maxPending : Nat
  pendingByIP : String → List (String × Int)
  fileToIP : String → Option String

/-- `NewPendingFileLimiter` (part_008:405-411). -/
def newPendingFileLimiter (maxPending : Nat) : PendingFileLimiter where
  maxPending := maxPending
  pendingByIP := fun _ => []
  fileToIP := fun _ => none

/-- `PendingFileLimiter.CanUpload` (part_008:415-421):
`len(l.pendingByIP[ip]) < l.maxPending`. -/
def canUpload (l : PendingFileLimiter) (ip : String) : Bool :=
  (l.pendingByIP ip).length < l.maxPending

/-- `PendingFileLimiter.PendingCount` (part_008:424-429). -/
def pendingCount (l : PendingFileLimiter) (ip : String) : Nat :=
  (l.pendingByIP ip).length

/-- Go map assignment inside a bucket: replace the entry if the fileID is
present, append it otherwise. -/
def bucketPut (b : List (String × Int)) (fileID : String) (t : Int) :
    List (String × Int) :=
  if b.any (fun e => e.1 = fileID) then
    b.map (fun e => if e.1 = fileID then (fileID, t) else e)
  else b ++ [(fileID, t)]

/-- `PendingFileLimiter.TrackPendingFile` (part_008:438-447): adds
`fileID → now` to the IP's bucket and `fileID → ip` to the reverse index —
with no admission check of its own. -/
def trackPendingFile (l : PendingFileLimiter) (ip fileID : String) (now : Int) :
    PendingFileLimiter where
  maxPending := l.maxPending
  pendingByIP := fun ip' =>
    if ip' = ip then bucketPut (l.pendingByIP ip) fileID now else l.pendingByIP ip'
  fileToIP := fun f => if f = fileID then some ip else l.fileToIP f

/-- `PendingFileLimiter.OnPaymentReceived` (part_008:451-467): unknown file
ids are a no-op; otherwise the file is removed from both maps (empty buckets
are pruned, which the `[]`-for-absent model renders as the empty bucket). -/
def onPaymentReceived (l : PendingFileLimiter) (fileID : String) : PendingFileLimiter :=
  match l.fileToIP fileID with
  | none => l
  | some ip =>
    { maxPending := l.maxPending
      pendingByIP := fun ip' =>
        if ip' = ip then (l.pendingByIP ip).filter (fun e => ¬ e.1 = fileID)
        else l.pendingByIP ip'
      fileToIP := fun f => if f = fileID then none else l.fileToIP f }

/-- `PendingFileLimiter.CleanupExpired` (part_008:472-493), stated pointwise
per key of the two maps (equal to the Go iteration on every key); entries
with `trackedAt < now − maxAge` are removed from both maps.  The removed
count returned by the Go method is not used by any caller's logic and is
omitted. -/
def limiterCleanupExpired (l : PendingFileLimiter) (maxAge now : Int) :
    PendingFileLimiter where
  maxPending := l.maxPending
  pendingByIP := fun ip =>
    (l.pendingByIP ip).filter (fun e => ¬ e.2 < now - maxAge)
  fileToIP := fun f =>
    match l.fileToIP f with
    | none => none
    | some ip =>
      if (l.pendingByIP ip).any (fun e => e.1 = f && decide (e.2 < now - maxAge))
      then none else some ip

/-- The boundary's admission-gated uses of the limiter: the upload handler
checks `CanUpload` before admitting (part_008:103 / handler.go:566) and
calls `TrackPendingFile` for admitted uploads; settlements invoke
`OnPaymentReceived` via the payment callback; the janitor runs
`CleanupExpired`. -/
inductive LimiterOp
  | track (ip fileID : String) (now : Int)
  | pay (fileID : String)
  | cleanup (maxAge now : Int)

/-- One admission-gated boundary step. -/
def gatedStep (l : PendingFileLimiter) : LimiterOp → PendingFileLimiter
  | .track ip fid now => if canUpload l ip then trackPendingFile l ip fid now else l
  | .pay fid => onPaymentReceived l fid
  | .cleanup a n => limiterCleanupExpired l a n

def runGatedOps (l : PendingFileLimiter) (ops : List LimiterOp) : PendingFileLimiter :=
  ops.foldl gatedStep l

/-- One row of the `pending_invoices` table, spec §6 persistence layout:
`pending_invoices(payment_hash PK, file_id, payment_request, amount_sats,
created_at)`.  Modelled from the spec: the store revision with
`store.PendingInvoice` and `SavePendingInvoice` / `DeletePendingInvoice` /
`ListPendingInvoices` is exercised by `src/internal/store/sqlite_test.go`
(TestSQLiteStore_PendingInvoices) and the payments tests in
`src/unnamed/part_006`, but its implementation is not among the source
files. -/
structure InvoiceRow where
  paymentHash : String
  fileID : String
  paymentRequest : String
  amountSats : Int
  createdAt : Nat
  deriving Repr, DecidableEq

/-- Coordinator maps plus the MetaStore's `pending_invoices` table, for the
persisted revision of the payments service. -/
structure PayServiceP where
  pending : List (String × PendingInvoice)
  byFileID : List (String × PendingInvoice)
  invoiceRows : List (String × InvoiceRow)
  deriving Repr, DecidableEq

/-- Modelled from the spec: the persisted `Service.CreateInvoiceForFile`
(spec §4.4 MintInvoiceFor — "on success updates both maps under a single
critical section and writes the PendingInvoice row. If the MetaStore write
fails, maps are rolled back before returning the error"), whose
implementation is absent from the sources while its tests
(`TestService_InvoicePersistence`, `TestService_LoadPendingInvoices` in
`src/unnamed/part_006`) are present.  `inv` is the wallet result, `writeOk`
the outcome of the `SavePendingInvoice` upsert, `now` the `created_at`
stamp.  Both map updates and the row write happen in the one step; on write
failure the state is returned unchanged (rollback). -/
def createInvoiceForFilePersisted (s : PayServiceP) (fileID : String) (inv : Invoice)
    (writeOk : Bool) (now : Nat) : Except Unit (Invoice × PayServiceP) :=
  let pend : PendingInvoice :=
    { fileID := fileID, paymentHash := inv.paymentHash, invoice := inv }
  let row : InvoiceRow :=
    { paymentHash := inv.paymentHash, fileID := fileID,
      paymentRequest := inv.paymentRequest, amountSats := inv.amountSats,
      createdAt := now }
  if writeOk then
    .ok (inv,
      { pending := mapInsert s.pending inv.paymentHash pend
        byFileID := mapInsert s.byFileID fileID pend
        invoiceRows := mapInsert s.invoiceRows inv.paymentHash row })
  else .error ()

/-- Spec §4.4 invariant: every entry of the in-memory hash map corresponds
to a PendingInvoice row of the MetaStore. -/
def mapsBackedByRows (s : PayServiceP) : Prop :=
  ∀ h p, mapLookup s.pending h = some p →
    ∃ row, mapLookup s.invoiceRows h = some row ∧ row.fileID = p.fileID

/- ═══════════ internal/payments AlbyHTTPClient.verifyWebhookSignature ═══════════ -/

/-- `strings.Split(s, sep)` for a one-character separator (used with
`" "`). -/
def splitChar (sep : Char) : List Char → List (List Char)
  | [] => [[]]
  | c :: cs =>
    if c = sep then [] :: splitChar sep cs
    else
      match splitChar sep cs with
      | [] => [[c]]
      | w :: ws => (c :: w) :: ws

/-- Split at the first comma, returning the pieces before and after it. -/
def breakAtComma : List Char → Option (List Char × List Char)
  | [] => none
  | c :: cs =>
    if c = ',' then some ([], cs)
    else
      match breakAtComma cs with
      | none => none
      | some (a, b) => some (c :: a, b)

/-- `strings.SplitN(s, ",", 2)`. -/
def splitN2Comma (s : List Char) : List (List Char) :=
  match breakAtComma s with
  | none => [s]
  | some (a, b) => [a, b]

def isGoDigit (c : Char) : Bool := '0' ≤ c && c ≤ '9'

def digitsToNat (ds : List Char) : Nat :=
  ds.foldl (fun acc c => acc * 10 + (c.toNat - '0'.toNat)) 0

/-- `parseTimestamp` (part_007:386-392): `fmt.Sscanf(ts, "%d", &unix)` —
skip leading white space, then an optional sign followed by at least one
decimal digit; the value comes from the maximal digit run and trailing
input is ignored by `Sscanf`. -/
def sscanfInt (s : List Char) : Option Int :=
  match s.dropWhile (fun c => c = ' ' || c = '\t' || c = '\n' || c = '\r') with
  | '-' :: rest =>
    let ds := rest.takeWhile isGoDigit
    if ds = [] then none else some (-(digitsToNat ds : Int))
  | '+' :: rest =>
    let ds := rest.takeWhile isGoDigit
    if ds = [] then none else some ((digitsToNat ds : Int))
  | rest =>
    let ds := rest.takeWhile isGoDigit
    if ds = [] then none else some ((digitsToNat ds : Int))

/-- The value of one standard-base64 alphabet character. -/
def b64Val (c : Char) : Option Nat :=
  if 'A' ≤ c ∧ c ≤ 'Z' then some (c.toNat - 'A'.toNat)
  else if 'a' ≤ c ∧ c ≤ 'z' then some (c.toNat - 'a'.toNat + 26)
  else if '0' ≤ c ∧ c ≤ '9' then some (c.toNat - '0'.toNat + 52)
  else if c = '+' then some 62
  else if c = '/' then some 63
  else none

/-- Decode standard base64 four characters at a time, with `=` padding
allowed only in the final group (`base64.StdEncoding` group rules). -/
def b64DecodeGroups : List Char → Option (List Nat)
  | [] => some []
  | c1 :: c2 :: c3 :: c4 :: rest =>
    match b64Val c1, b64Val c2 with
    | some v1, some v2 =>
      if c3 = '=' then
        if c4 = '=' ∧ rest = [] then some [v1 * 4 + v2 / 16] else none
      else
        match b64Val c3 with
        | some v3 =>
          if c4 = '=' then
            if rest = [] then some [v1 * 4 + v2 / 16, v2 % 16 * 16 + v3 / 4] else none
          else
            match b64Val c4 with
            | some v4 =>
              (b64DecodeGroups rest).map
                (fun tl => (v1 * 4 + v2 / 16) :: (v2 % 16 * 16 + v3 / 4) ::
                  (v3 % 4 * 64 + v4) :: tl)
            | none => none
        | none => none
    | _, _ => none
  | _ => none

/-- `base64.StdEncoding.DecodeString`: new-line characters are ignored, the
rest must be full four-character groups over the standard alphabet. -/
def base64Decode (s : List Char) : Option (List Nat) :=
  b64DecodeGroups (s.filter (fun c => ¬ (c = '\r' ∨ c = '\n')))

/-- Strip the optional `whsec_` prefix from the configured secret
(part_007:354-357). -/
def stripWhsec (s : List Char) : List Char :=
  match s with
  | 'w' :: 'h' :: 's' :: 'e' :: 'c' :: '_' :: rest => rest
  | _ => s

/-- The signed content `fmt.Sprintf("%s.%s.%s", svixID, svixTimestamp,
string(body))` (part_007:365). -/
def signedContent (svixID svixTimestamp body : List Char) : List Char :=
  svixID ++ '.' :: svixTimestamp ++ '.' :: body

/-- The per-entry test of the signature loop (part_007:374-381):
`parts := strings.SplitN(sig, ",", 2); len(parts) == 2 && parts[0] == "v1"
&& hmac.Equal(parts[1], expectedSig)` (`hmac.Equal` is constant-time byte
equality). -/
def sigEntryMatches (expectedSig : List Char) (entry : List Char) : Bool :=
  match splitN2Comma entry with
  | [v, s] => decide (v = ['v', '1']) && decide (s = expectedSig)
  | _ => false

inductive VerifyErr
  | missingHeaders      -- "missing SVIX headers"
  | invalidTimestamp    -- "invalid timestamp"
  | timestampOutOfRange -- "timestamp too old or in future"
  | badSecret           -- "failed to decode secret"
  | signatureMismatch   -- "signature mismatch"
  deriving Repr, DecidableEq

def fiveMinNs : Int := 300 * 1000000000

/-- `AlbyHTTPClient.verifyWebhookSignature` (part_007:334-384).  `hmacB64`
models `base64.StdEncoding.EncodeToString(HMAC-SHA256(secretBytes, msg))`
from Go's standard crypto library; `nowNs` is `time.Now()`.  Header values
are `headers.Get` results, the empty list meaning an absent header. -/
def verifyWebhookSignature (hmacB64 : List Nat → List Char → List Char)
    (webhookSecret : List Char) (nowNs : Int)
    (body svixID svixTimestamp svixSignature : List Char) :
    Except VerifyErr Unit :=
  if svixID = [] ∨ svixTimestamp = [] ∨ svixSignature = [] then .error .missingHeaders
  else
    match sscanfInt svixTimestamp with
    | none => .error .invalidTimestamp
    | some ts =>
      if nowNs - ts * 1000000000 > fiveMinNs ∨ ts * 1000000000 - nowNs > fiveMinNs then
        .error .timestampOutOfRange
      else
        match base64Decode (stripWhsec webhookSecret) with
        | none => .error .badSecret
        | some secretBytes =>
          if (splitChar ' ' svixSignature).any
              (sigEntryMatches (hmacB64 secretBytes
                (signedContent svixID svixTimestamp body))) then .ok ()
          else .error .signatureMismatch

/-- A stand-in MAC for the C2 witness: it distinguishes the signed content
of body `b` from every other content. -/
def wMacSample : List Nat → List Char → List Char :=
  fun _ content =>
    if content = signedContent ['i'] ['0'] ['b'] then ['M'] else ['X']

theorem findRow_map_eq (db : FileDB) (id : String) (f : FileRow → FileRow)
    (hf : ∀ r, (f r).id = r.id) :
    findRow (db.map (fun r => if r.id = id then f r else r)) id =
      (findRow db id).map (fun r => if r.id = id then f r else r) := by
  induction db with
  | nil => rfl
  | cons r rest ih =>
    by_cases h : r.id = id
    · simp [findRow, List.find?, h, hf]
    · simp only [findRow, List.map_cons] at *
      rw [if_neg h]
      rw [List.find?_cons_of_neg, List.find?_cons_of_neg] <;>
        simp_all [findRow]

theorem findRow_isSome_iff_any (db : FileDB) (id : String) :
    (findRow db id).isSome = db.any (fun r => r.id = id) := by
  induction db with
  | nil => rfl
  | cons r rest ih =>
    by_cases h : r.id = id <;> simp_all [findRow, List.find?_cons, List.any_cons]

/-- C3.  `UpdatePaymentStatus(fileID, true)` on an existing row returns ok
and, in the single UPDATE, sets `paid = true` and
`expires_at = now + host_duration` (truncated to whole seconds, hence within
the spec's skew bound ε = 1 minute), reading `host_duration` from the same
row and leaving `id`, `size`, `host_duration` and `created_at` unchanged and
every other row untouched; it returns `NotFound` exactly when no row with
that id exists (zero rows updated), in which case no new store state is
produced (the UPDATE matched nothing, so the store is unchanged). -/
theorem updatePaymentStatus_markPaid_spec (db : FileDB) (fileID : String) (now : Nat) :
    (∀ r, findRow db fileID = some r →
      ∃ db', updatePaymentStatus db fileID true now = .ok db' ∧
        ∃ r', findRow db' fileID = some r' ∧
          r'.paid = true ∧
          r'.expiresAt = truncSec now + r.hostDurationNs / nsPerSec * nsPerSec ∧
          (r'.expiresAt ≤ now + r.hostDurationNs ∧
            now + r.hostDurationNs < r'.expiresAt + 2 * nsPerSec ∧ 2 * nsPerSec ≤ epsNs) ∧
          r'.id = r.id ∧ r'.size = r.size ∧ r'.hostDurationNs = r.hostDurationNs ∧
          r'.createdAt = r.createdAt ∧
          (∀ s : FileRow, s ∈ db → ¬ s.id = fileID → s ∈ db')) ∧
    (findRow db fileID = none →
      updatePaymentStatus db fileID true now = .error .notFound) := by
  constructor
  · intro r hfind
    have hany : db.any (fun s => s.id = fileID) = true := by
      rw [← findRow_isSome_iff_any, hfind]; rfl
    refine ⟨db.map (fun s =>
        if s.id = fileID then
          { s with
              paid := true
              expiresAt := truncSec now + s.hostDurationNs / nsPerSec * nsPerSec }
        else s), by simp [updatePaymentStatus, hany], ?_⟩
    refine ⟨{ r with
              paid := true
              expiresAt := truncSec now + r.hostDurationNs / nsPerSec * nsPerSec }, ?_, ?_⟩
    · have := findRow_map_eq db fileID
        (fun s => { s with
                    paid := true
                    expiresAt := truncSec now + s.hostDurationNs / nsPerSec * nsPerSec })
        (fun s => rfl)
      have hid : r.id = fileID := by simpa using List.find?_some hfind
      rw [this, hfind]
      simp [hid]
    · refine ⟨rfl, rfl, ?_, rfl, rfl, rfl, rfl, ?_⟩
      · dsimp only
        simp only [truncSec, nsPerSec, epsNs]
        omega
      · intro s hs hneq
        refine List.mem_map.2 ⟨s, hs, ?_⟩
        simp [hneq]
  · intro h
    have hany : db.any (fun s => s.id = fileID) = false := by
      have := findRow_isSome_iff_any db fileID
      rw [h] at this
      exact this.symm
    simp [updatePaymentStatus, hany]

/-- C3 witness: the theorem evaluated on a concrete one-row store: the update
succeeds on the present id and reports NotFound on an absent one. -/
theorem updatePaymentStatus_markPaid_spec_witness :
    (∃ db', updatePaymentStatus
        [{ id := "f1", size := 10, expiresAt := 900000000000, hostDurationNs := 604800000000000,
           paid := false, createdAt := 0 }] "f1" true 1500000000 = .ok db' ∧
      ∃ r', findRow db' "f1" = some r' ∧
        r'.paid = true ∧
        r'.expiresAt = truncSec 1500000000 + 604800000000000 / nsPerSec * nsPerSec ∧
        (r'.expiresAt ≤ 1500000000 + 604800000000000 ∧
          1500000000 + 604800000000000 < r'.expiresAt + 2 * nsPerSec ∧ 2 * nsPerSec ≤ epsNs) ∧
        r'.id = "f1" ∧ r'.size = 10 ∧ r'.hostDurationNs = 604800000000000 ∧
        r'.createdAt = 0 ∧
        (∀ s : FileRow,
          s ∈ [{ id := "f1", size := 10, expiresAt := 900000000000,
                 hostDurationNs := 604800000000000, paid := false, createdAt := 0 }] →
          ¬ s.id = "f1" → s ∈ db')) ∧
    updatePaymentStatus ([] : FileDB) "f2" true 1500000000 = .error .notFound :=
  ⟨(updatePaymentStatus_markPaid_spec
      [{ id := "f1", size := 10, expiresAt := 900000000000, hostDurationNs := 604800000000000,
         paid := false, createdAt := 0 }] "f1" 1500000000).1
      { id := "f1", size := 10, expiresAt := 900000000000, hostDurationNs := 604800000000000,
        paid := false, createdAt := 0 } rfl,
   (updatePaymentStatus_markPaid_spec [] "f2" 1500000000).2 rfl⟩

/- ═══════════════ claim C7: CompleteUpload (finalize) ═══════════════ -/

theorem findRow_none_any_false (db : FileDB) (id : String) (h : findRow db id = none) :
    db.any (fun r => r.id = id) = false := by
  have := findRow_isSome_iff_any db id
  rw [h] at this
  exact this.symm

/-- C7.  With a Stat-capable backend, `CompleteUpload` maps an absent blob
(`Stat` = `ErrNotFound`) to the "upload may have failed" error; on a
successful `Stat` it returns ok — regardless of whether the declared size
matches the actual one, a mismatch only sets the logged flag — and appends a
row with `paid = false`, `size` = actual size, `host_duration` as given and
`expires_at = now + PendingTimeout`, where `PendingTimeout` is 15 minutes. -/
theorem completeUpload_spec (statResult : Except FileErr Int) (db : FileDB)
    (id : String) (expectedSize : Int) (hd now : Nat) :
    (statResult = .error .fsNotFound →
      completeUpload true statResult db id expectedSize hd now = .error .uploadMayHaveFailed) ∧
    (∀ actual, statResult = .ok actual → findRow db id = none →
      completeUpload true statResult db id expectedSize hd now =
        .ok (db ++ [{ id := id, size := actual, expiresAt := now + pendingTimeoutNs,
                      hostDurationNs := hd, paid := false, createdAt := now }],
             { id := id, size := actual },
             decide (0 < expectedSize ∧ actual ≠ expectedSize)) ∧
      pendingTimeoutNs = 15 * 60 * nsPerSec) := by
  constructor
  · intro h
    subst h
    rfl
  · intro actual h hnone
    subst h
    have hany := findRow_none_any_false db id hnone
    refine ⟨?_, rfl⟩
    simp [completeUpload, saveFileMetadata, hany]

/-- C7 witness: a concrete run of both branches of the theorem. -/
theorem completeUpload_spec_witness :
    (completeUpload true (.error .fsNotFound) [] "id1" 5 100 7 = .error .uploadMayHaveFailed) ∧
    (completeUpload true (.ok 6) [] "id1" 5 100 7 =
        .ok ([{ id := "id1", size := 6, expiresAt := 7 + pendingTimeoutNs,
                hostDurationNs := 100, paid := false, createdAt := 7 }],
             { id := "id1", size := 6 },
             decide (0 < (5 : Int) ∧ (6 : Int) ≠ 5)) ∧
      pendingTimeoutNs = 15 * 60 * nsPerSec) :=
  ⟨(completeUpload_spec (.error .fsNotFound) [] "id1" 5 100 7).1 rfl,
   (completeUpload_spec (.ok 6) [] "id1" 5 100 7).2 6 rfl rfl⟩

/- ═══════════════ claim C8: retrieval gating and its order ═══════════════ -/

/-- C8.  Retrieval of an id: no metadata row yields NotFound (404); an
unpaid row yields NotPaid (402) with no expiry condition — in particular an
unpaid row past `expires_at` still yields 402, the paid check coming first;
a paid row past `expires_at` yields Expired (410); otherwise the download
succeeds, the handler answering 200 after issuing the `Load` through
`DownloadSeekable`. -/
theorem download_gating_spec (db : FileDB) (idRaw : List Char) (now : Nat)
    (hvalid : isValidFileID idRaw = true) :
    (findRow db (String.mk idRaw) = none →
      download db (String.mk idRaw) now = .error .storeNotFound ∧
      handleDownload db idRaw now = (404, [.serviceDownload (String.mk idRaw)])) ∧
    (∀ m, findRow db (String.mk idRaw) = some m → m.paid = false →
      download db (String.mk idRaw) now = .error .notPaid ∧
      handleDownload db idRaw now = (402, [.serviceDownload (String.mk idRaw)])) ∧
    (∀ m, findRow db (String.mk idRaw) = some m → m.paid = true → m.expiresAt < now →
      download db (String.mk idRaw) now = .error .expired ∧
      handleDownload db idRaw now = (410, [.serviceDownload (String.mk idRaw)])) ∧
    (∀ m, findRow db (String.mk idRaw) = some m → m.paid = true → ¬ m.expiresAt < now →
      download db (String.mk idRaw) now = .ok (String.mk idRaw) ∧
      handleDownload db idRaw now =
        (200, [.serviceDownload (String.mk idRaw), .serviceGetMetadata (String.mk idRaw)])) := by
  have heq : download db (String.mk idRaw) now =
      match findRow db (String.mk idRaw) with
      | none => .error .storeNotFound
      | some m =>
        if m.paid = false then .error .notPaid
        else if m.expiresAt < now then .error .expired
        else .ok (String.mk idRaw) := by
    simp only [download, getFileMetadata, findRow]
    cases List.find? (fun r => decide (r.id = String.mk idRaw)) db <;> rfl
  refine ⟨?_, ?_, ?_, ?_⟩
  · intro hnone
    have hdl : download db (String.mk idRaw) now = .error .storeNotFound := by
      rw [heq, hnone]
    exact ⟨hdl, by simp [handleDownload, hvalid, hdl]⟩
  · intro m hm hpaid
    have hdl : download db (String.mk idRaw) now = .error .notPaid := by
      rw [heq, hm]
      simp [hpaid]
    exact ⟨hdl, by simp [handleDownload, hvalid, hdl]⟩
  · intro m hm hpaid hexp
    have hdl : download db (String.mk idRaw) now = .error .expired := by
      rw [heq, hm]
      simp [hpaid, hexp]
    exact ⟨hdl, by simp [handleDownload, hvalid, hdl]⟩
  · intro m hm hpaid hexp
    have hdl : download db (String.mk idRaw) now = .ok (String.mk idRaw) := by
      rw [heq, hm]
      simp [hpaid, hexp]
    exact ⟨hdl, by simp [handleDownload, hvalid, hdl]⟩

/-- C8 witness: all four branches on concrete stores (including the
unpaid-and-expired row answered with 402, not 410). -/
theorem download_gating_spec_witness :
    (download [] "x1" 50 = .error .storeNotFound ∧
      handleDownload [] ['x', '1'] 50 = (404, [.serviceDownload "x1"])) ∧
    (download [{ id := "x1", size := 1, expiresAt := 10, hostDurationNs := 0,
                 paid := false, createdAt := 0 }] "x1" 50 = .error .notPaid ∧
      handleDownload [{ id := "x1", size := 1, expiresAt := 10, hostDurationNs := 0,
                        paid := false, createdAt := 0 }] ['x', '1'] 50 =
        (402, [.serviceDownload "x1"])) ∧
    (download [{ id := "x1", size := 1, expiresAt := 10, hostDurationNs := 0,
                 paid := true, createdAt := 0 }] "x1" 50 = .error .expired ∧
      handleDownload [{ id := "x1", size := 1, expiresAt := 10, hostDurationNs := 0,
                        paid := true, createdAt := 0 }] ['x', '1'] 50 =
        (410, [.serviceDownload "x1"])) ∧
    (download [{ id := "x1", size := 1, expiresAt := 99, hostDurationNs := 0,
                 paid := true, createdAt := 0 }] "x1" 50 = .ok "x1" ∧
      handleDownload [{ id := "x1", size := 1, expiresAt := 99, hostDurationNs := 0,
                        paid := true, createdAt := 0 }] ['x', '1'] 50 =
        (200, [.serviceDownload "x1", .serviceGetMetadata "x1"])) :=
  ⟨(download_gating_spec [] ['x', '1'] 50 (by decide)).1 rfl,
   (download_gating_spec _ ['x', '1'] 50 (by decide)).2.1 _ rfl rfl,
   (download_gating_spec _ ['x', '1'] 50 (by decide)).2.2.1 _ rfl rfl (by decide),
   (download_gating_spec _ ['x', '1'] 50 (by decide)).2.2.2 _ rfl rfl (by decide)⟩

theorem isValidFileID_iff_grammar (id : List Char) :
    isValidFileID id = true ↔ idGrammar id := by
  simp only [isValidFileID, matchesIDPattern, idGrammar, Bool.and_eq_true,
    decide_eq_true_eq, List.all_eq_true]
  tauto

theorem validateID_error_iff (id : List Char) :
    validateID id = .error .invalidID ↔ isValidFileID id = false := by
  unfold validateID
  by_cases hc : id = [] ∨ 64 < id.length ∨ matchesIDPattern id = false
  · rw [if_pos hc]
    constructor
    · intro _
      rcases hc with h | h | h
      · simp [isValidFileID, h]
      · simp [isValidFileID, Nat.not_le.2 h]
      · simp [isValidFileID, h]
    · intro _
      rfl
  · rw [if_neg hc]
    push_neg at hc
    obtain ⟨h1, h2, h3⟩ := hc
    constructor
    · intro h
      cases h
    · intro h
      exfalso
      have h3' : matchesIDPattern id = true := by
        cases hmp : matchesIDPattern id
        · exact absurd hmp h3
        · rfl
      have : isValidFileID id = true := by
        simp [isValidFileID, h1, h2, h3']
      rw [this] at h
      cases h

theorem validateID_eq_invalid_iff (id : List Char) :
    validateID id = .error .invalidID ↔ ¬ idGrammar id := by
  rw [validateID_error_iff, ← isValidFileID_iff_grammar]
  cases isValidFileID id <;> simp

/-- C9.  For every id outside the grammar `[A-Za-z0-9]` of length 1..64, the
filesystem storage operations reject with `InvalidID` before constructing
any path or touching the filesystem (empty effect list), and the HTTP
boundary answers 400 without issuing any service (BlobStore/MetaStore)
call. -/
theorem invalid_id_rejected (id : List Char) (h : ¬ idGrammar id) :
    validateID id = .error .invalidID ∧
    (∀ f, fsSaveWithProgress f id = (.error .invalidID, [])) ∧
    (∀ g, fsLoad g id = (.error .invalidID, [])) ∧
    (∀ g, fsDelete g id = (.error .invalidID, [])) ∧
    (∀ db now, handleDownload db id now = (400, [])) ∧
    (∀ db, handleStatusGate db id = (400, [])) := by
  have hv : validateID id = .error .invalidID := (validateID_eq_invalid_iff id).2 h
  have hb : isValidFileID id = false := by
    cases hvb : isValidFileID id
    · rfl
    · exact absurd ((isValidFileID_iff_grammar id).1 hvb) h
  refine ⟨hv, ?_, ?_, ?_, ?_, ?_⟩
  · intro f
    simp [fsSaveWithProgress, hv]
  · intro g
    simp [fsLoad, hv]
  · intro g
    simp [fsDelete, hv]
  · intro db now
    simp [handleDownload, hb]
  · intro db
    simp [handleStatusGate, hb]

/-- C9 witness: the path-traversal shaped id `../x` is rejected everywhere
with no effect (overlong and empty ids fall to the same theorem). -/
theorem invalid_id_rejected_witness :
    validateID ['.', '.', '/', 'x'] = .error .invalidID ∧
    (∀ f, fsSaveWithProgress f ['.', '.', '/', 'x'] = (.error .invalidID, [])) ∧
    (∀ g, fsLoad g ['.', '.', '/', 'x'] = (.error .invalidID, [])) ∧
    (∀ g, fsDelete g ['.', '.', '/', 'x'] = (.error .invalidID, [])) ∧
    (∀ db now, handleDownload db ['.', '.', '/', 'x'] now = (400, [])) ∧
    (∀ db, handleStatusGate db ['.', '.', '/', 'x'] = (400, [])) :=
  invalid_id_rejected ['.', '.', '/', 'x'] (fun hg =>
    absurd (hg.2.2 '/' (by decide)) (by decide))

theorem cleanupExpired_eq_foldl (sdel : String → Bool) (db : FileDB) (now : Nat) :
    cleanupExpired sdel db now = (listExpiredFiles db now).foldl (cleanupStep sdel) (db, 0) :=
  rfl

theorem findRow_append_some (db l : FileDB) (id : String) (m : FileRow)
    (h : findRow db id = some m) : findRow (db ++ l) id = some m := by
  induction db with
  | nil => cases h
  | cons r rest ih =>
    by_cases hr : r.id = id <;>
      simp_all [findRow, List.find?_cons, List.cons_append]

theorem findRow_map_of_id_preserving (db : FileDB) (id : String) (g : FileRow → FileRow)
    (hg : ∀ r, (g r).id = r.id) :
    findRow (db.map g) id = (findRow db id).map g := by
  induction db with
  | nil => rfl
  | cons r rest ih =>
    by_cases hr : r.id = id <;>
      simp_all [findRow, List.find?_cons, hg]

theorem findRow_filter_ne (db : FileDB) (x id : String) :
    findRow (db.filter (fun r => ¬ r.id = x)) id =
      if id = x then none else findRow db id := by
  induction db with
  | nil => simp [findRow]
  | cons r rest ih =>
    by_cases hx : r.id = x
    · by_cases hid : id = x
      · simp_all [findRow, List.filter_cons]
      · have : ¬ r.id = id := fun hc => hid (by rw [← hc, hx])
        simp_all [findRow, List.filter_cons, List.find?_cons]
    · by_cases hid : r.id = id
      · have : ¬ id = x := fun hc => hx (by rw [hid, hc])
        simp_all [findRow, List.filter_cons, List.find?_cons]
      · simp_all [findRow, List.filter_cons, List.find?_cons]

theorem cleanupStep_lookup (sdel : String → Bool) (acc : FileDB × Nat) (meta : FileRow)
    (id : String) :
    findRow (cleanupStep sdel acc meta).1 id = none ∨
    findRow (cleanupStep sdel acc meta).1 id = findRow acc.1 id := by
  unfold cleanupStep
  by_cases hs : sdel meta.id
  · rw [if_pos hs]
    unfold deleteFileMetadata
    by_cases hany : acc.1.any (fun r => r.id = meta.id)
    · rw [if_pos hany]
      have := findRow_filter_ne acc.1 meta.id id
      by_cases hid : id = meta.id
      · left
        simpa [hid] using this
      · right
        simpa [hid] using this
    · rw [if_neg hany]
      right
      rfl
  · rw [if_neg hs]
    right
    rfl

theorem cleanupFoldl_lookup (sdel : String → Bool) (l : List FileRow) (acc : FileDB × Nat)
    (id : String) :
    findRow (l.foldl (cleanupStep sdel) acc).1 id = none ∨
    findRow (l.foldl (cleanupStep sdel) acc).1 id = findRow acc.1 id := by
  induction l generalizing acc with
  | nil => right; rfl
  | cons meta rest ih =>
    rw [List.foldl_cons]
    rcases ih (cleanupStep sdel acc meta) with h | h
    · left; exact h
    · rcases cleanupStep_lookup sdel acc meta id with h2 | h2
      · left; rw [h, h2]
      · right; rw [h, h2]

/-- Single-step preservation: no operation turns a paid row unpaid. -/
theorem paidMono_step (db : FileDB) (op : SysOp) (id : String) (m m' : FileRow)
    (h : findRow db id = some m) (hp : m.paid = true)
    (h' : findRow (sysStep db op) id = some m') : m'.paid = true := by
  cases op with
  | upload uid size hd now =>
    simp only [sysStep, saveFileMetadata] at h'
    by_cases hany : db.any (fun r => r.id = uid)
    · rw [if_pos hany] at h'
      rw [h] at h'
      cases h'
      exact hp
    · rw [if_neg hany] at h'
      rw [findRow_append_some db _ id m h] at h'
      cases h'
      exact hp
  | settle fid now =>
    simp only [sysStep, updatePaymentStatus] at h'
    by_cases hany : db.any (fun r => r.id = fid)
    · rw [if_pos hany] at h'
      rw [findRow_map_of_id_preserving db id _
        (fun r => by by_cases hc : r.id = fid <;> simp [hc])] at h'
      rw [h] at h'
      rw [Option.map_some'] at h'
      by_cases hc : m.id = fid
      · rw [if_pos hc] at h'
        cases h'
        rfl
      · rw [if_neg hc] at h'
        cases h'
        exact hp
    · rw [if_neg hany] at h'
      rw [h] at h'
      cases h'
      exact hp
  | sweep sdel now =>
    simp only [sysStep, cleanupExpired_eq_foldl] at h'
    rcases cleanupFoldl_lookup sdel (listExpiredFiles db now) (db, 0) id with hc | hc
    · rw [hc] at h'
      cases h'
    · rw [hc] at h'
      rw [h] at h'
      cases h'
      exact hp

/-- C6.  Paid-once: (i) no reachable store-mutating operation — upload /
finalize metadata creation, settlement handling, cleanup sweep — turns a
row's `paid` flag from true back to false (every reachable
`UpdatePaymentStatus` call passes `paid = true`); (ii) along any sequence of
such operations during which the blob's row stays present, once `paid =
true` it remains true in every later state. -/
theorem paid_once_spec :
    (∀ (db : FileDB) (op : SysOp) (id : String) (m m' : FileRow),
      findRow db id = some m → m.paid = true →
      findRow (sysStep db op) id = some m' → m'.paid = true) ∧
    (∀ (ops : List SysOp) (db : FileDB) (id : String) (m m' : FileRow),
      findRow db id = some m → m.paid = true →
      (∀ n : Nat, (findRow ((ops.take n).foldl sysStep db) id).isSome = true) →
      findRow (ops.foldl sysStep db) id = some m' → m'.paid = true) := by
  refine ⟨paidMono_step, ?_⟩
  intro ops
  induction ops with
  | nil =>
    intro db id m m' h hp _ h'
    rw [List.foldl_nil] at h'
    rw [h] at h'
    cases h'
    exact hp
  | cons op rest ih =>
    intro db id m m' h hp hpres h'
    have hp1 : (findRow (sysStep db op) id).isSome = true := by
      have := hpres 1
      simpa [List.take_succ_cons, List.take_zero] using this
    obtain ⟨m1, hm1⟩ := Option.isSome_iff_exists.1 hp1
    have hm1paid : m1.paid = true := paidMono_step db op id m m1 h hp hm1
    refine ih (sysStep db op) id m1 m' hm1 hm1paid ?_ ?_
    · intro n
      have := hpres (n + 1)
      simpa [List.take_succ_cons, List.foldl_cons] using this
    · rw [List.foldl_cons] at h'
      exact h'

/-- C6 witness: a paid row stays paid across a settle of another file and a
sweep. -/
theorem paid_once_spec_witness :
    ({ id := "b", size := 1, expiresAt := 99, hostDurationNs := 0, paid := true,
       createdAt := 0 } : FileRow).paid = true :=
  paid_once_spec.2 [.settle "other" 5, .sweep (fun _ => true) 0]
    [{ id := "b", size := 1, expiresAt := 99, hostDurationNs := 0, paid := true,
       createdAt := 0 }] "b"
    { id := "b", size := 1, expiresAt := 99, hostDurationNs := 0, paid := true,
      createdAt := 0 }
    { id := "b", size := 1, expiresAt := 99, hostDurationNs := 0, paid := true,
      createdAt := 0 }
    rfl rfl
    (fun n => by
      match n with
      | 0 => rfl
      | 1 => rfl
      | (k + 2) =>
        simp only [List.take_succ_cons, List.take_nil]
        rfl)
    rfl

theorem mapLookup_erase_self {α : Type} (l : List (String × α)) (k : String) :
    mapLookup (mapErase l k) k = none := by
  induction l with
  | nil => rfl
  | cons e rest ih =>
    by_cases he : e.1 = k <;>
      simp_all [mapLookup, mapErase, List.filter_cons, List.find?_cons]

theorem handlePayment_absent (s : PayService) (h : String)
    (hl : mapLookup s.pending h = none) : handlePayment s h = (s, []) := by
  unfold handlePayment
  rw [hl]

theorem processDeliveries_absent (s : PayService) (h : String) (j : Nat)
    (hl : mapLookup s.pending h = none) :
    processDeliveries s (List.replicate j h) = (s, []) := by
  induction j with
  | zero => rfl
  | succ j ih =>
    rw [List.replicate_succ]
    unfold processDeliveries
    rw [handlePayment_absent s h hl]
    simp [ih]

/-- C1.  At-most-once settlement: for a hash `h` present in the pending maps
with file id `p.fileID` and a registered callback, delivering `h` `k ≥ 1`
times produces exactly the effect list of the first delivery — one
`UpdatePaymentStatus(fileID, true)` call and one callback invocation, each
counted exactly once — because the first delivery removes `h` from the maps
under the lock, so every later delivery finds it absent and is a no-op. -/
theorem settlement_at_most_once (s : PayService) (h : String) (p : PendingInvoice) (k : Nat)
    (hlook : mapLookup s.pending h = some p) (hcb : s.hasCallback = true) (hk : 1 ≤ k) :
    processDeliveries s (List.replicate k h) =
      ((handlePayment s h).1,
       [PayEffect.updateStatus p.fileID true, PayEffect.callbackCall p.fileID]) ∧
    (processDeliveries s (List.replicate k h)).2.count (PayEffect.updateStatus p.fileID true)
      = 1 ∧
    (processDeliveries s (List.replicate k h)).2.count (PayEffect.callbackCall p.fileID)
      = 1 ∧
    mapLookup (handlePayment s h).1.pending h = none ∧
    (∀ j, processDeliveries (handlePayment s h).1 (List.replicate j h) =
      ((handlePayment s h).1, [])) := by
  have hstep : handlePayment s h =
      ({ s with
          pending := mapErase s.pending h
          byFileID := mapErase s.byFileID p.fileID },
       [PayEffect.updateStatus p.fileID true, PayEffect.callbackCall p.fileID]) := by
    unfold handlePayment
    rw [hlook, hcb]
    rfl
  have habsent : mapLookup (handlePayment s h).1.pending h = none := by
    rw [hstep]
    exact mapLookup_erase_self s.pending h
  have hnoop : ∀ j, processDeliveries (handlePayment s h).1 (List.replicate j h) =
      ((handlePayment s h).1, []) := fun j =>
    processDeliveries_absent _ h j habsent
  obtain ⟨k', rfl⟩ : ∃ k', k = k' + 1 := ⟨k - 1, by omega⟩
  have hrun : processDeliveries s (List.replicate (k' + 1) h) =
      ((handlePayment s h).1,
       [PayEffect.updateStatus p.fileID true, PayEffect.callbackCall p.fileID]) := by
    rw [List.replicate_succ]
    show ((processDeliveries (handlePayment s h).1 (List.replicate k' h)).1,
        (handlePayment s h).2 ++
          (processDeliveries (handlePayment s h).1 (List.replicate k' h)).2) = _
    rw [hnoop k', hstep]
    simp
  refine ⟨hrun, ?_, ?_, habsent, hnoop⟩
  · rw [hrun]
    simp [List.count_cons]
  · rw [hrun]
    simp [List.count_cons]

/-- C1 witness: one pending invoice, three deliveries of its hash. -/
theorem settlement_at_most_once_witness :
    processDeliveries samplePayService (List.replicate 3 "h1") =
      ((handlePayment samplePayService "h1").1,
       [PayEffect.updateStatus "f1" true, PayEffect.callbackCall "f1"]) :=
  (settlement_at_most_once samplePayService "h1" samplePendingInvoice 3
    rfl rfl (by decide)).1

/-- C10.  `CreateInvoiceForFile` is total only for `len(fileID) ≥ 8`: with
at least 8 characters the memo is the fixed prefix plus the first 8
characters and the call proceeds; yet there are file ids admissible under
the id grammar (length 1..7) on which the slice `fileID[:8]` panics before
any wallet call. -/
theorem createInvoiceForFile_slice_panic :
    (∀ (s : PayService) (fid : List Char) (inv : Invoice), 8 ≤ fid.length →
      ∃ s', createInvoiceForFile s fid inv =
        some ("SatoshiSend file hosting: ".data ++ fid.take 8, s')) ∧
    (∃ fid : List Char, isValidFileID fid = true ∧ fid.length < 8 ∧
      ∀ (s : PayService) (inv : Invoice), createInvoiceForFile s fid inv = none) := by
  constructor
  · intro s fid inv hlen
    have hg : goStringTake fid 8 = some (fid.take 8) := by
      unfold goStringTake
      rw [if_pos hlen]
    unfold createInvoiceForFile
    rw [hg]
    exact ⟨_, rfl⟩
  · refine ⟨['a', 'b', 'c'], by decide, by decide, ?_⟩
    intro s inv
    unfold createInvoiceForFile goStringTake
    rw [if_neg (by decide)]

/-- C10 witness: an 8-character id builds the memo from its first 8
characters. -/
theorem createInvoiceForFile_slice_panic_witness :
    ∃ s', createInvoiceForFile
        { pending := [], byFileID := [], hasCallback := false }
        ['a', 'b', 'c', 'd', 'e', 'f', '0', '1']
        { paymentHash := "h", paymentRequest := "r", amountSats := 1 } =
      some ("SatoshiSend file hosting: ".data ++
        (['a', 'b', 'c', 'd', 'e', 'f', '0', '1'] : List Char).take 8, s') :=
  createInvoiceForFile_slice_panic.1
    { pending := [], byFileID := [], hasCallback := false }
    ['a', 'b', 'c', 'd', 'e', 'f', '0', '1']
    { paymentHash := "h", paymentRequest := "r", amountSats := 1 }
    (by decide)

theorem bucketPut_length (b : List (String × Int)) (f : String) (t : Int) :
    (bucketPut b f t).length ≤ b.length + 1 := by
  unfold bucketPut
  by_cases h : b.any (fun e => e.1 = f)
  · rw [if_pos h, List.length_map]
    omega
  · rw [if_neg h, List.length_append]
    simp

/-- C5 counterexample: with `maxPending = 3`, four `TrackPendingFile` calls
for one IP (each a limiter operation on a reachable state) leave that IP
with 4 > 3 tracked pending files — `TrackPendingFile` enforces no bound. -/
theorem limiter_track_exceeds_bound_cex :
    pendingCount
        (trackPendingFile
          (trackPendingFile
            (trackPendingFile
              (trackPendingFile (newPendingFileLimiter 3) "10.0.0.7" "a" 0)
              "10.0.0.7" "b" 0)
            "10.0.0.7" "c" 0)
          "10.0.0.7" "d" 0)
        "10.0.0.7" = 4 ∧
    (trackPendingFile
        (trackPendingFile
          (trackPendingFile
            (trackPendingFile (newPendingFileLimiter 3) "10.0.0.7" "a" 0)
            "10.0.0.7" "b" 0)
          "10.0.0.7" "c" 0)
        "10.0.0.7" "d" 0).maxPending = 3 ∧ 3 < 4 := by
  refine ⟨?_, rfl, by decide⟩
  rfl

/-- C5 (amended).  `CanUpload` admits exactly below the bound; a
`TrackPendingFile` performed when `CanUpload` answered true preserves
`pendingCount ≤ maxPending` for every IP; `OnPaymentReceived` and
`CleanupExpired` never increase any count; hence the bound holds after every
operation of any admission-gated operation sequence from a fresh limiter.
`TrackPendingFile` itself enforces no bound (see the counterexample), so the
bound is an invariant of admission-gated use, not of the bare operation. -/
theorem limiter_admission_amended :
    (∀ l ip, canUpload l ip = true ↔ pendingCount l ip < l.maxPending) ∧
    (∀ l ip fid t ip', canUpload l ip = true → pendingCount l ip' ≤ l.maxPending →
      pendingCount (trackPendingFile l ip fid t) ip' ≤ l.maxPending) ∧
    (∀ l fid ip, pendingCount (onPaymentReceived l fid) ip ≤ pendingCount l ip) ∧
    (∀ l maxAge now ip,
      pendingCount (limiterCleanupExpired l maxAge now) ip ≤ pendingCount l ip) ∧
    (∀ ops maxP ip, pendingCount (runGatedOps (newPendingFileLimiter maxP) ops) ip ≤ maxP) := by
  have hcan : ∀ l ip, canUpload l ip = true ↔ pendingCount l ip < l.maxPending := by
    intro l ip
    unfold canUpload pendingCount
    exact decide_eq_true_iff
  have htrack : ∀ (l : PendingFileLimiter) ip fid t ip', canUpload l ip = true →
      pendingCount l ip' ≤ l.maxPending →
      pendingCount (trackPendingFile l ip fid t) ip' ≤ l.maxPending := by
    intro l ip fid t ip' hcu hle
    have hlt := (hcan l ip).1 hcu
    unfold pendingCount trackPendingFile at *
    dsimp only
    by_cases hip : ip' = ip
    · rw [if_pos hip]
      have := bucketPut_length (l.pendingByIP ip) fid t
      omega
    · rw [if_neg hip]
      exact hle
  have hpay : ∀ (l : PendingFileLimiter) fid ip,
      pendingCount (onPaymentReceived l fid) ip ≤ pendingCount l ip := by
    intro l fid ip
    unfold onPaymentReceived
    cases hf : l.fileToIP fid with
    | none => exact le_refl _
    | some ipf =>
      unfold pendingCount
      dsimp only
      by_cases hip : ip = ipf
      · rw [if_pos hip, hip]
        exact List.length_filter_le _ _
      · rw [if_neg hip]
  have hclean : ∀ (l : PendingFileLimiter) maxAge now ip,
      pendingCount (limiterCleanupExpired l maxAge now) ip ≤ pendingCount l ip := by
    intro l maxAge now ip
    unfold pendingCount limiterCleanupExpired
    exact List.length_filter_le _ _
  refine ⟨hcan, htrack, hpay, hclean, ?_⟩
  have hmaxinv : ∀ (l : PendingFileLimiter) (op : LimiterOp),
      (gatedStep l op).maxPending = l.maxPending := by
    intro l op
    cases op with
    | track ip fid now =>
      simp only [gatedStep]
      by_cases hcu : canUpload l ip
      · rw [if_pos hcu]
        rfl
      · rw [if_neg hcu]
    | pay fid =>
      simp only [gatedStep, onPaymentReceived]
      cases l.fileToIP fid <;> rfl
    | cleanup a n => rfl
  have hstep : ∀ (l : PendingFileLimiter) (op : LimiterOp) ip,
      (∀ ip', pendingCount l ip' ≤ l.maxPending) →
      pendingCount (gatedStep l op) ip ≤ l.maxPending := by
    intro l op ip hinv
    cases op with
    | track tip fid now =>
      simp only [gatedStep]
      by_cases hcu : canUpload l tip
      · rw [if_pos hcu]
        exact htrack l tip fid now ip hcu (hinv ip)
      · rw [if_neg hcu]
        exact hinv ip
    | pay fid => exact le_trans (hpay l fid ip) (hinv ip)
    | cleanup a n => exact le_trans (hclean l a n ip) (hinv ip)
  intro ops maxP ip
  suffices hgen : ∀ (l : PendingFileLimiter),
      (∀ ip', pendingCount l ip' ≤ l.maxPending) →
      ∀ ip', pendingCount (runGatedOps l ops) ip' ≤ l.maxPending by
    exact hgen (newPendingFileLimiter maxP) (fun _ => by simp [pendingCount, newPendingFileLimiter]) ip
  induction ops with
  | nil => intro l hinv ip'; exact hinv ip'
  | cons op rest ih =>
    intro l hinv ip'
    have hnext : ∀ ip'', pendingCount (gatedStep l op) ip'' ≤ (gatedStep l op).maxPending := by
      intro ip''
      rw [hmaxinv l op]
      exact hstep l op ip'' hinv
    have := ih (gatedStep l op) hnext ip'
    rw [hmaxinv l op] at this
    exact this

/-- C5 amended-theorem witness: concrete uses of each conjunct. -/
theorem limiter_admission_amended_witness :
    pendingCount
        (trackPendingFile (newPendingFileLimiter 3) "10.0.0.7" "a" 0) "10.0.0.7" ≤ 3 ∧
    pendingCount
        (runGatedOps (newPendingFileLimiter 3)
          [.track "10.0.0.7" "a" 0, .track "10.0.0.7" "b" 0, .track "10.0.0.7" "c" 0,
           .track "10.0.0.7" "d" 0])
        "10.0.0.7" ≤ 3 :=
  ⟨limiter_admission_amended.2.1 (newPendingFileLimiter 3) "10.0.0.7" "a" 0 "10.0.0.7"
      (by decide) (by decide),
   limiter_admission_amended.2.2.2.2
      [.track "10.0.0.7" "a" 0, .track "10.0.0.7" "b" 0, .track "10.0.0.7" "c" 0,
       .track "10.0.0.7" "d" 0] 3 "10.0.0.7"⟩

/- ═══════════════ claim C4: minting persists the invoice (spec-modelled) ═══════════════ -/

theorem findEntry_erase_self {α : Type} (l : List (String × α)) (k : String) :
    (mapErase l k).find? (fun e => e.1 = k) = none := by
  induction l with
  | nil => rfl
  | cons e rest ih =>
    by_cases he : e.1 = k <;>
      simp_all [mapErase, List.filter_cons, List.find?_cons]

theorem findEntry_erase_ne {α : Type} (l : List (String × α)) (k k' : String)
    (h : ¬ k' = k) :
    (mapErase l k).find? (fun e => e.1 = k') = l.find? (fun e => e.1 = k') := by
  induction l with
  | nil => rfl
  | cons e rest ih =>
    by_cases hek : e.1 = k
    · have : ¬ e.1 = k' := fun hc => h (hc.symm.trans hek)
      simp_all [mapErase, List.filter_cons, List.find?_cons]
    · by_cases hek' : e.1 = k' <;>
        simp_all [mapErase, List.filter_cons, List.find?_cons]

theorem mapLookup_insert {α : Type} (l : List (String × α)) (k k' : String) (v : α) :
    mapLookup (mapInsert l k v) k' = if k' = k then some v else mapLookup l k' := by
  unfold mapInsert mapLookup
  rw [List.find?_append]
  by_cases h : k' = k
  · subst h
    rw [if_pos rfl, findEntry_erase_self]
    simp [List.find?_cons]
  · rw [if_neg h, findEntry_erase_ne l k k' h]
    have hk : ¬ k = k' := fun hc => h hc.symm
    have hnone : List.find? (fun e => decide (e.1 = k')) [(k, v)] = none := by
      simp [hk]
    rw [hnone]
    simp

/-- C4 (spec-modelled).  A successful mint updates both in-memory maps in
its single critical section — afterwards the hash map and the file-id map
both hold the new pending invoice — and writes the corresponding
PendingInvoice row, so the every-map-entry-has-a-row correspondence is
preserved. -/
theorem createInvoiceForFile_persists (s : PayServiceP) (fileID : String) (inv : Invoice)
    (now : Nat) (hinv : mapsBackedByRows s) :
    ∃ s', createInvoiceForFilePersisted s fileID inv true now = .ok (inv, s') ∧
      mapLookup s'.pending inv.paymentHash =
        some { fileID := fileID, paymentHash := inv.paymentHash, invoice := inv } ∧
      mapLookup s'.byFileID fileID =
        some { fileID := fileID, paymentHash := inv.paymentHash, invoice := inv } ∧
      mapLookup s'.invoiceRows inv.paymentHash =
        some { paymentHash := inv.paymentHash, fileID := fileID,
               paymentRequest := inv.paymentRequest, amountSats := inv.amountSats,
               createdAt := now } ∧
      mapsBackedByRows s' := by
  refine ⟨_, rfl, ?_, ?_, ?_, ?_⟩
  · rw [mapLookup_insert]
    simp
  · rw [mapLookup_insert]
    simp
  · rw [mapLookup_insert]
    simp
  · intro h p hp
    rw [mapLookup_insert] at hp
    by_cases hh : h = inv.paymentHash
    · rw [if_pos hh] at hp
      cases hp
      refine ⟨{ paymentHash := inv.paymentHash, fileID := fileID,
                paymentRequest := inv.paymentRequest, amountSats := inv.amountSats,
                createdAt := now }, ?_, rfl⟩
      rw [mapLookup_insert, if_pos hh]
    · rw [if_neg hh] at hp
      obtain ⟨row, hrow, hfid⟩ := hinv h p hp
      refine ⟨row, ?_, hfid⟩
      rw [mapLookup_insert, if_neg hh]
      exact hrow

/-- C4 witness: minting into an empty coordinator state. -/
theorem createInvoiceForFile_persists_witness :
    ∃ s', createInvoiceForFilePersisted
        { pending := [], byFileID := [], invoiceRows := [] } "f1"
        { paymentHash := "h1", paymentRequest := "lnbc", amountSats := 100 } true 9 =
        .ok ({ paymentHash := "h1", paymentRequest := "lnbc", amountSats := 100 }, s') ∧
      mapLookup s'.pending "h1" =
        some { fileID := "f1", paymentHash := "h1",
               invoice := { paymentHash := "h1", paymentRequest := "lnbc",
                            amountSats := 100 } } ∧
      mapLookup s'.byFileID "f1" =
        some { fileID := "f1", paymentHash := "h1",
               invoice := { paymentHash := "h1", paymentRequest := "lnbc",
                            amountSats := 100 } } ∧
      mapLookup s'.invoiceRows "h1" =
        some { paymentHash := "h1", fileID := "f1", paymentRequest := "lnbc",
               amountSats := 100, createdAt := 9 } ∧
      mapsBackedByRows s' :=
  createInvoiceForFile_persists
    { pending := [], byFileID := [], invoiceRows := [] } "f1"
    { paymentHash := "h1", paymentRequest := "lnbc", amountSats := 100 } 9
    (fun h p hp => by simp [mapLookup] at hp)

theorem breakAtComma_eq (l : List Char) :
    ∀ a b, breakAtComma l = some (a, b) → l = a ++ ',' :: b := by
  induction l with
  | nil => intro a b h; cases h
  | cons c cs ih =>
    intro a b h
    unfold breakAtComma at h
    by_cases hc : c = ','
    · rw [if_pos hc] at h
      cases h
      rw [hc]
      rfl
    · rw [if_neg hc] at h
      cases hbr : breakAtComma cs with
      | none =>
        rw [hbr] at h
        cases h
      | some p =>
        obtain ⟨a', b'⟩ := p
        rw [hbr] at h
        simp only [Option.some.injEq, Prod.mk.injEq] at h
        obtain ⟨ha, hb⟩ := h
        subst ha
        subst hb
        have := ih a' b' hbr
        rw [List.cons_append, ← this]

theorem sigEntryMatches_iff (expected entry : List Char) :
    sigEntryMatches expected entry = true ↔ entry = 'v' :: '1' :: ',' :: expected := by
  constructor
  · intro h
    unfold sigEntryMatches splitN2Comma at h
    cases hbr : breakAtComma entry with
    | none =>
      rw [hbr] at h
      cases h
    | some p =>
      obtain ⟨a, b⟩ := p
      rw [hbr] at h
      simp only [Bool.and_eq_true, decide_eq_true_eq] at h
      obtain ⟨hv, hs⟩ := h
      have := breakAtComma_eq entry a b hbr
      rw [this, hv, hs]
      rfl
  · intro h
    subst h
    have hbr : breakAtComma ('v' :: '1' :: ',' :: expected) = some (['v', '1'], expected) := by
      simp [breakAtComma]
    unfold sigEntryMatches splitN2Comma
    rw [hbr]
    simp

/-- Full characterisation of the verifier's accepting runs. -/
theorem verifyWebhookSignature_ok_iff (hmacB64 : List Nat → List Char → List Char)
    (secret : List Char) (nowNs : Int) (body svixID svixTimestamp svixSignature : List Char)
    (sb : List Nat) (hsec : base64Decode (stripWhsec secret) = some sb) :
    verifyWebhookSignature hmacB64 secret nowNs body svixID svixTimestamp svixSignature
        = .ok () ↔
      svixID ≠ [] ∧ svixTimestamp ≠ [] ∧ svixSignature ≠ [] ∧
      ∃ ts, sscanfInt svixTimestamp = some ts ∧
        |nowNs - ts * 1000000000| ≤ fiveMinNs ∧
        ∃ entry ∈ splitChar ' ' svixSignature,
          entry = 'v' :: '1' :: ',' ::
            hmacB64 sb (signedContent svixID svixTimestamp body) := by
  unfold verifyWebhookSignature
  by_cases hmiss : svixID = [] ∨ svixTimestamp = [] ∨ svixSignature = []
  · rw [if_pos hmiss]
    constructor
    · intro h
      cases h
    · rintro ⟨h1, h2, h3, -⟩
      exact absurd hmiss (by tauto)
  · rw [if_neg hmiss]
    push_neg at hmiss
    obtain ⟨h1, h2, h3⟩ := hmiss
    cases hts : sscanfInt svixTimestamp with
    | none =>
      dsimp only
      constructor
      · intro h
        cases h
      · rintro ⟨-, -, -, ts, hts', -⟩
        cases hts'
    | some ts =>
      dsimp only
      by_cases hwin : nowNs - ts * 1000000000 > fiveMinNs ∨
          ts * 1000000000 - nowNs > fiveMinNs
      · rw [if_pos hwin]
        constructor
        · intro h
          cases h
        · rintro ⟨-, -, -, ts', hts', habs, -⟩
          cases hts'
          rw [abs_le] at habs
          simp only [fiveMinNs] at habs hwin
          rcases hwin with hw | hw <;> omega
      · rw [if_neg hwin, hsec]
        dsimp only
        push_neg at hwin
        obtain ⟨hw1, hw2⟩ := hwin
        by_cases hany : (splitChar ' ' svixSignature).any
            (sigEntryMatches (hmacB64 sb (signedContent svixID svixTimestamp body))) = true
        · rw [if_pos hany]
          constructor
          · intro _
            refine ⟨h1, h2, h3, ts, rfl, ?_, ?_⟩
            · rw [abs_le]
              simp only [fiveMinNs] at hw1 hw2 ⊢
              omega
            · obtain ⟨entry, hmem, hmatch⟩ := List.any_eq_true.1 hany
              exact ⟨entry, hmem, (sigEntryMatches_iff _ entry).1 hmatch⟩
          · intro _
            rfl
        · rw [if_neg hany]
          constructor
          · intro h
            cases h
          · rintro ⟨-, -, -, ts', hts', -, entry, hmem, hentry⟩
            cases hts'
            exact absurd (List.any_eq_true.2
              ⟨entry, hmem, (sigEntryMatches_iff _ entry).2 hentry⟩) hany

/-- C2.  (i) The verifier accepts exactly the envelopes whose three SVIX
headers are present, whose timestamp parses and lies within 5 minutes of
now, and one of whose space-separated `v1,<b64>` signature entries equals
the base64 HMAC-SHA256 of `id.timestamp.body` under the
(`whsec_`-stripped, base64-decoded) secret.  (ii) Consequently a request
whose signature header presents no entry matching the MAC of its
(possibly tampered) body under the configured secret — in particular any
body byte flip or secret rotation that changes the MAC of an
honestly-signed envelope — is rejected. -/
theorem webhook_verification_spec (hmacB64 : List Nat → List Char → List Char)
    (secret : List Char) (nowNs : Int)
    (body svixID svixTimestamp svixSignature : List Char)
    (sb : List Nat) (hsec : base64Decode (stripWhsec secret) = some sb) :
    (verifyWebhookSignature hmacB64 secret nowNs body svixID svixTimestamp svixSignature
        = .ok () ↔
      svixID ≠ [] ∧ svixTimestamp ≠ [] ∧ svixSignature ≠ [] ∧
      ∃ ts, sscanfInt svixTimestamp = some ts ∧
        |nowNs - ts * 1000000000| ≤ fiveMinNs ∧
        ∃ entry ∈ splitChar ' ' svixSignature,
          entry = 'v' :: '1' :: ',' ::
            hmacB64 sb (signedContent svixID svixTimestamp body)) ∧
    (∀ (secret' : List Char) (sb' : List Nat) (body' : List Char),
      base64Decode (stripWhsec secret') = some sb' →
      (∀ entry ∈ splitChar ' ' svixSignature,
        entry ≠ 'v' :: '1' :: ',' ::
          hmacB64 sb' (signedContent svixID svixTimestamp body')) →
      verifyWebhookSignature hmacB64 secret' nowNs body' svixID svixTimestamp
        svixSignature ≠ .ok ()) := by
  refine ⟨verifyWebhookSignature_ok_iff hmacB64 secret nowNs body _ _ _ sb hsec, ?_⟩
  intro secret' sb' body' hsec' hnone hok
  obtain ⟨-, -, -, ts, -, -, entry, hmem, hentry⟩ :=
    (verifyWebhookSignature_ok_iff hmacB64 secret' nowNs body' _ _ _ sb' hsec').1 hok
  exact hnone entry hmem hentry

/-- C2 witness: with secret `whsec_` (empty key), id `i`, timestamp `0` at
`now = 0` and signature header `v1,M`, the body `b` (whose MAC is presented)
verifies and the one-byte-different body `c` is rejected. -/
theorem webhook_verification_spec_witness :
    verifyWebhookSignature wMacSample ['w', 'h', 's', 'e', 'c', '_'] 0 ['b'] ['i'] ['0']
        ['v', '1', ',', 'M'] = .ok () ∧
    verifyWebhookSignature wMacSample ['w', 'h', 's', 'e', 'c', '_'] 0 ['c'] ['i'] ['0']
        ['v', '1', ',', 'M'] ≠ .ok () := by
  constructor
  · exact (webhook_verification_spec wMacSample ['w', 'h', 's', 'e', 'c', '_'] 0 ['b']
      ['i'] ['0'] ['v', '1', ',', 'M'] [] (by decide)).1.mpr
      ⟨by decide, by decide, by decide, 0, by decide, by decide,
       ['v', '1', ',', 'M'], by decide, by decide⟩
  · exact (webhook_verification_spec wMacSample ['w', 'h', 's', 'e', 'c', '_'] 0 ['b']
      ['i'] ['0'] ['v', '1', ',', 'M'] [] (by decide)).2
      ['w', 'h', 's', 'e', 'c', '_'] [] ['c'] (by decide) (by decide)
